import Mathlib

/-!
Verification of the wordflash word-reconciliation engine.

Shallow embedding of `src/wordflash/database_manager.py`,
`src/wordflash/word_loader.py` and `src/wordflash/quiz_loader.py`.

Modelling conventions:
* TinyDB documents are Python dicts; stored word documents are modelled by
  the structure `Word`.  The field `type_` records whether the stored dict
  carries a `"type"` key (`none` = the key is absent).  `add_word`'s document
  literal contains no `"type"` key, so it always stores `type_ := none`.
* `md5` over the combined string is modelled as an injective encoding: the
  hash of a pair is the combined string `source.lower() ++ ":" ++
  target.lower()` itself.  Two pairs collide in the model exactly when their
  combined strings coincide, which matches the Python code up to md5
  collisions of distinct strings.
* Python truthiness on optional string fields (`doc.get("gender")`): `None`
  and `""` are falsy, every other string is truthy; a list is truthy iff
  non-empty.
* `datetime.now().isoformat()` timestamps are modelled by a `Nat` parameter
  `now` threaded into each mutating operation.
* `list(set(xs))` has unspecified iteration order in Python; it is modelled
  as `xs.dedup`, one concrete order with exactly the set's elements.
  Theorems about category merging are stated up to membership.
-/

/-- Python's `str.lower()`, modelled per character (all strings appearing in
the claims are ASCII, where the two coincide).  Defined by structural
recursion over the character list so that the kernel can evaluate it. -/
def String.pyLower (s : String) : String := String.mk (s.data.map Char.toLower)

namespace Wordflash

/-- Truthiness of a Python optional-string field: `None` and `""` are falsy. -/
def truthyS : Option String → Bool
  | none => false
  | some s => s ≠ ""

/-- A stored word document (a dict in the TinyDB `words` table). -/
structure Word where
  source : String
  target : String
  source_hash : String
  gender : Option String
  plural : Option String
  categories : List String
  notes : Option String
  created_at : Nat
  updated_at : Nat
  type_ : Option String
  deriving Repr, DecidableEq

/-- The argument dict of `DatabaseManager.add_word`.  `none` models an absent
key.  `category` and `type_` are extra keys passed by
`QuizLoader.store_quiz_to_db`; `add_word` never reads them. -/
structure WordData where
  source : String
  target : String
  gender : Option String := none
  plural : Option String := none
  categories : Option (List String) := none
  notes : Option String := none
  category : Option String := none
  type_ : Option String := none
  deriving Repr, DecidableEq

/-- A document of the `word_relations` table. -/
structure Relation where
  word_id : Nat
  related_word_id : Nat
  relation_type : String
  deriving Repr, DecidableEq

/-- The mutable state of a `DatabaseManager`: the `words` table as a list of
(doc_id, document) pairs in table iteration order, the next doc id TinyDB
would assign, and the `word_relations` table.  (The `categories` registry
table is not touched by any modelled operation.) -/
structure DB where
  words : List (Nat × Word)
  nextId : Nat
  relations : List Relation
  deriving Repr, DecidableEq

def emptyDB : DB := { words := [], nextId := 1, relations := [] }

/-- `DatabaseManager._generate_hash`: md5 of `f"{source.lower()}:{target.lower()}"`,
with md5 modelled as an injective encoding of its input string. -/
def generate_hash (source target : String) : String :=
  source.pyLower ++ ":" ++ target.pyLower

/-- `self.words_table.search(Word.source_hash == h)`: all docs whose
`source_hash` equals `h`, in table order. -/
def search_hash (db : DB) (h : String) : List (Nat × Word) :=
  db.words.filter (fun p => p.2.source_hash == h)

/-- The updates dict of `DatabaseManager._update_word_metadata` applied to a
single document: `categories` and `updated_at` are always rewritten;
`gender`, `plural`, `notes` are rewritten only when absent (falsy) on the
existing doc and present (truthy) on the incoming data. -/
def apply_updates (now : Nat) (wd : WordData) (ex : Word) (doc : Word) : Word :=
  { doc with
    categories := (ex.categories ++ wd.categories.getD []).dedup
    updated_at := now
    gender := if !truthyS ex.gender && truthyS wd.gender then wd.gender else doc.gender
    plural := if !truthyS ex.plural && truthyS wd.plural then wd.plural else doc.plural
    notes := if !truthyS ex.notes && truthyS wd.notes then wd.notes else doc.notes }

/-- `DatabaseManager._update_word_metadata`: computes the updates dict from the
first search hit `ex` and merges it into the doc with id `word_id`. -/
def update_word_metadata (now : Nat) (word_id : Nat) (wd : WordData) (ex : Word)
    (db : DB) : DB :=
  { db with
    words := db.words.map (fun p =>
      if p.1 == word_id then (p.1, apply_updates now wd ex p.2) else p) }

/-- The `word_doc` dict literal built by `add_word` for a novel pair: note
that `categories` defaults to the empty list and that the dict carries no
`"type"` key. -/
def new_word_doc (now : Nat) (wd : WordData) : Word :=
  { source := wd.source
    target := wd.target
    source_hash := generate_hash wd.source wd.target
    gender := wd.gender
    plural := wd.plural
    categories := wd.categories.getD []
    notes := wd.notes
    created_at := now
    updated_at := now
    type_ := none }

/-- `DatabaseManager.add_word`.  Returns `((doc_id, is_new), new state)`. -/
def add_word (now : Nat) (wd : WordData) (db : DB) : (Nat × Bool) × DB :=
  match search_hash db (generate_hash wd.source wd.target) with
  | (word_id, ex) :: _ =>
      ((word_id, false), update_word_metadata now word_id wd ex db)
  | [] =>
      ((db.nextId, true),
        { db with words := db.words ++ [(db.nextId, new_word_doc now wd)],
                  nextId := db.nextId + 1 })

/-- `DatabaseManager.add_word_relation`: inserts the triple unless an
identical one exists; never checks that either word id resolves. -/
def add_word_relation (db : DB) (word_id related_word_id : Nat)
    (relation_type : String) : DB :=
  let r : Relation := { word_id := word_id, related_word_id := related_word_id,
                        relation_type := relation_type }
  if (db.relations.filter (fun x => x == r)).isEmpty then
    { db with relations := db.relations ++ [r] }
  else db

/-- An entry of `DatabaseManager.get_word_relations`' result. -/
structure RelationOut where
  source : String
  target : String
  relation_type : String
  deriving Repr, DecidableEq

/-- `self.words_table.get(doc_id=i)`: the doc with id `i`, when stored. -/
def get_doc (db : DB) (i : Nat) : Option Word :=
  (db.words.find? (fun p => p.1 == i)).map Prod.snd

/-- `DatabaseManager.get_word_relations`: all relations of `word_id` whose
related word resolves, reported with the related word's current fields. -/
def get_word_relations (db : DB) (word_id : Nat) : List RelationOut :=
  (db.relations.filter (fun r => r.word_id == word_id)).filterMap
    (fun r => (get_doc db r.related_word_id).map
      (fun w => { source := w.source, target := w.target,
                  relation_type := r.relation_type }))

/-! ### Export (`DatabaseManager.export_words`) -/

/-- A value inside an exported record dict: a string or a list of strings. -/
inductive FieldValue
  | s (v : String)
  | l (v : List String)
  deriving Repr, DecidableEq

/-- An exported record: a dict built key by key, modelled as an association
list in key-insertion order. -/
abbrev ExportRecord := List (String × FieldValue)

/-- The record dict built for one word inside `export_words`: `source` and
`target` always; `gender`, `plural`, `categories`, `notes` only when truthy
on the stored doc (so an absent field yields no key at all, not a null). -/
def export_record (w : Word) : ExportRecord :=
  [("source", .s w.source), ("target", .s w.target)]
    ++ (if truthyS w.gender then [("gender", .s (w.gender.getD ""))] else [])
    ++ (if truthyS w.plural then [("plural", .s (w.plural.getD ""))] else [])
    ++ (if !w.categories.isEmpty then [("categories", .l w.categories)] else [])
    ++ (if truthyS w.notes then [("notes", .s (w.notes.getD ""))] else [])

/-- Stable insertion of `w` after every element whose `source` is `≤ w.source`:
the behaviour of Python's stable `sorted(..., key=lambda x: x["source"])`
on one more element, processed left to right. -/
def insert_by_source (w : Word) : List Word → List Word
  | [] => [w]
  | x :: xs =>
      if x.source ≤ w.source then x :: insert_by_source w xs
      else w :: x :: xs

/-- Python's `sorted(all_words, key=lambda x: x["source"])`: a stable sort
ascending by the `source` field under code-point string ordering. -/
def sort_by_source (ws : List Word) : List Word :=
  ws.foldl (fun acc w => insert_by_source w acc) []

/-- `DatabaseManager.export_words` over the docs of the `words` table in
table iteration order. -/
def export_words (ws : List Word) : List ExportRecord :=
  (sort_by_source ws).map export_record

/-- The value of an exported record's `source` key (used to state ordering
properties of the export). -/
def rec_source (r : ExportRecord) : String :=
  match r.lookup "source" with
  | some (.s v) => v
  | _ => ""

/-! ### Duplicate diagnostics (`DatabaseManager.get_duplicates`) -/

/-- An entry of `get_duplicates`' result. -/
structure DupEntry where
  source : String
  target : String
  count : Nat
  deriving Repr, DecidableEq

/-- The exact (not lower-cased) string pair of a stored word. -/
def pairOf (w : Word) : String × String := (w.source, w.target)

/-- Lookup in the `seen` dict (an association list with unique keys). -/
def seen_lookup (key : String × String) :
    List ((String × String) × Nat) → Option Nat
  | [] => none
  | (k, n) :: rest => if k == key then some n else seen_lookup key rest

/-- The `seen[key] += 1` step on the `seen` dict. -/
def bump_seen (key : String × String) :
    List ((String × String) × Nat) → List ((String × String) × Nat)
  | [] => []
  | (k, n) :: rest =>
      if k == key then (k, n + 1) :: rest else (k, n) :: bump_seen key rest

/-- The loop of `DatabaseManager.get_duplicates`: walk the table, count each
exact pair in `seen`, and emit an entry for every occurrence after the
first, carrying the occurrence count so far. -/
def dup_go : List Word → List ((String × String) × Nat) → List DupEntry
  | [], _ => []
  | w :: ws, seen =>
      match seen_lookup (pairOf w) seen with
      | some n =>
          { source := w.source, target := w.target, count := n + 1 }
            :: dup_go ws (bump_seen (pairOf w) seen)
      | none => dup_go ws (seen ++ [(pairOf w, 1)])

/-- `DatabaseManager.get_duplicates` over the docs of the `words` table in
table iteration order. -/
def get_duplicates (ws : List Word) : List DupEntry := dup_go ws []

/-! ### Vocabulary normalizer (`word_loader.py`) -/

/-- One entry of an enhanced-format word list, as classified by the branch
conditions of `WordLoader._process_enhanced_format`: a dict carrying both
`source` and `target` keys (with the optional keys), a single-key dict
`{k: v}`, or anything else (a non-dict, or a dict matching neither shape). -/
inductive YamlItem
  | full (source target : String) (gender plural : Option String)
      (categories : Option (List String)) (notes : Option String)
  | single (key value : String)
  | other
  deriving Repr, DecidableEq

/-- Parsed YAML input, as classified by the branches of
`WordLoader.load_from_yaml`: a dict with a `"words"` list, any other dict
(a flat source → target mapping with items in iteration order), a top-level
list, or any other value (yields no words). -/
inductive YamlData
  | mapWithWords (words : List YamlItem)
  | simpleMap (pairs : List (String × String))
  | list (items : List YamlItem)
  | other
  deriving Repr, DecidableEq

/-- `WordLoader._process_simple_format`. -/
def process_simple_format (pairs : List (String × String)) : List WordData :=
  pairs.map (fun p =>
    { source := p.1, target := p.2, categories := some ["uncategorized"] })

/-- `WordLoader._process_enhanced_format`: full entries keep their fields
with `categories` defaulting to `["uncategorized"]` when the key is absent;
single-key dicts become bare pairs; everything else is skipped. -/
def process_enhanced_format (items : List YamlItem) : List WordData :=
  items.filterMap (fun item =>
    match item with
    | .full s t g p c n =>
        some { source := s, target := t, gender := g, plural := p,
               categories := some (c.getD ["uncategorized"]), notes := n }
    | .single k v =>
        some { source := k, target := v, categories := some ["uncategorized"] }
    | .other => none)

/-- The normalized record list `load_from_yaml` builds before storing. -/
def process_yaml (data : YamlData) : List WordData :=
  match data with
  | .mapWithWords items => process_enhanced_format items
  | .simpleMap pairs => process_simple_format pairs
  | .list items => process_enhanced_format items
  | .other => []

/-- `WordLoader._store_words_in_database`: every record is passed to
`add_word` in order (the duplicate diagnostic print has no state effect). -/
def store_words_in_database (now : Nat) (words : List WordData) (db : DB) : DB :=
  words.foldl (fun acc wd => (add_word now wd acc).2) db

/-- `WordLoader._convert_to_simple_format`. -/
def convert_to_simple_format (words : List WordData) : List (String × String) :=
  words.map (fun w => (w.source, w.target))

/-- `WordLoader.load_from_yaml` after parsing: normalize, store every record,
return the simple pairs. -/
def load_from_yaml (now : Nat) (data : YamlData) (db : DB) :
    List (String × String) × DB :=
  let words := process_yaml data
  (convert_to_simple_format words, store_words_in_database now words db)

/-- `WordLoader.validate_word_list` on normalized records: false on an empty
list or when any record has an empty `source` or `target`.  (The
not-a-dict and missing-key branches cannot fire on normalized records,
which always carry both keys.) -/
def validate_word_list (words : List WordData) : Bool :=
  !words.isEmpty && words.all (fun w => w.source ≠ "" && w.target ≠ "")

/-! ### Quiz normalizer (`quiz_loader.py`) -/

/-- A caller-supplied media config dict: each of the three known keys may be
absent. -/
structure MediaOverride where
  text : Option Bool := none
  audio : Option Bool := none
  image : Option Bool := none
  deriving Repr, DecidableEq

/-- A resolved media config with all three keys. -/
structure Media where
  text : Bool
  audio : Bool
  image : Bool
  deriving Repr, DecidableEq

/-- The default media configuration `{text: true, audio: false, image: false}`. -/
def default_media : Media := { text := true, audio := false, image := false }

/-- `{**default_media, **question_data.get(key, {})}`: caller-supplied keys
override the default field by field. -/
def apply_override (d : Media) : Option MediaOverride → Media
  | none => d
  | some o => { text := o.text.getD d.text, audio := o.audio.getD d.audio,
                image := o.image.getD d.image }

/-- One entry of a `questions` list (`none` models an absent key). -/
structure QuestionData where
  question : Option String := none
  answer : Option String := none
  question_media : Option MediaOverride := none
  answer_media : Option MediaOverride := none
  notes : Option String := none
  answer_image_search_term : Option String := none
  question_image_search_term : Option String := none
  question_lang : Option String := none
  answer_lang : Option String := none
  deriving Repr, DecidableEq

/-- A canonical quiz record produced by `QuizLoader._process_question`. -/
structure ProcessedQuestion where
  question : String
  answer : String
  question_media : Media
  answer_media : Media
  category : String
  notes : Option String
  answer_image_search_term : String
  question_image_search_term : String
  question_lang : String
  answer_lang : String
  deriving Repr, DecidableEq

/-- `QuizLoader._process_question`: drop the entry when the `question` or
`answer` key is absent; otherwise resolve media configs over the default,
image search terms over the question/answer text, and langs over `"en"`. -/
def process_question (qd : QuestionData) (category : String) :
    Option ProcessedQuestion :=
  match qd.question, qd.answer with
  | some q, some a =>
      some { question := q
             answer := a
             question_media := apply_override default_media qd.question_media
             answer_media := apply_override default_media qd.answer_media
             category := category
             notes := qd.notes
             answer_image_search_term := qd.answer_image_search_term.getD a
             question_image_search_term := qd.question_image_search_term.getD q
             question_lang := qd.question_lang.getD "en"
             answer_lang := qd.answer_lang.getD "en" }
  | _, _ => none

/-- `QuizLoader.store_quiz_to_db`: feeds the quiz into `add_word` as a dict
with `source`, `target`, a singular `category` key and a `type: "quiz"`
key (no exception can arise in the model, so it returns `true`). -/
def store_quiz_to_db (now : Nat) (q : ProcessedQuestion) (db : DB) : Bool × DB :=
  let wd : WordData :=
    { source := q.question, target := q.answer,
      category := some q.category, type_ := some "quiz" }
  (true, (add_word now wd db).2)

/-! ### Concrete fixtures used by witnesses and counterexamples -/

def katze_fem : WordData := { source := "Katze", target := "cat", gender := some "feminine" }

def katze_neut : WordData := { source := "Katze", target := "cat", gender := some "neuter" }

def fisch_first : WordData := { source := "Fisch", target := "fish" }

def fisch_second : WordData := { source := "fisch", target := "FISH" }

def plain_ab : WordData := { source := "a", target := "b" }

def word_ab : Word :=
  { source := "a", target := "b", source_hash := "a:b", gender := none,
    plural := none, categories := [], notes := none, created_at := 0,
    updated_at := 0, type_ := none }

def katze_doc : Word := new_word_doc 0 katze_fem

def katze_db : DB := (add_word 0 katze_fem emptyDB).2

def quiz_katze : ProcessedQuestion :=
  { question := "Katze", answer := "cat",
    question_media := default_media, answer_media := default_media,
    category := "Trivia", notes := none,
    answer_image_search_term := "cat", question_image_search_term := "Katze",
    question_lang := "en", answer_lang := "en" }

def bad_batch : YamlData := .list [.full "a" "" none none none none]

def bad_wd : WordData :=
  { source := "a", target := "", categories := some ["uncategorized"] }

def sample_question : QuestionData :=
  { question := some "Who?", answer := some "Me",
    question_media := some { audio := some true },
    answer_lang := some "de" }

def sample_processed : ProcessedQuestion :=
  { question := "Who?", answer := "Me",
    question_media := { text := true, audio := true, image := false },
    answer_media := default_media,
    category := "Trivia", notes := none,
    answer_image_search_term := "Me", question_image_search_term := "Who?",
    question_lang := "en", answer_lang := "de" }

def word_cd : Word :=
  { word_ab with source := "c", target := "d", source_hash := "c:d" }

def word_ab_x : Word :=
  { word_ab with source_hash := "unrelated-hash", gender := some "m" }

def rel_db : DB :=
  { words := [(1, word_ab), (2, word_cd)],
    nextId := 3,
    relations := [{ word_id := 1, related_word_id := 2,
                    relation_type := "synonym" },
                  { word_id := 1, related_word_id := 5,
                    relation_type := "antonym" }] }

/-- Modelled from the spec's words for the refinement comparison in C9: the
default media config `{text: true, audio: false, image: false}` overridden
field by field by whichever keys the caller supplied. -/
def spec_media_merge (o : Option MediaOverride) : Media :=
  { text := (o.bind (fun m => m.text)).getD true
    audio := (o.bind (fun m => m.audio)).getD false
    image := (o.bind (fun m => m.image)).getD false }

/-! ## Helper lemmas -/

theorem apply_updates_source (now : Nat) (wd : WordData) (ex doc : Word) :
    (apply_updates now wd ex doc).source = doc.source := rfl

theorem apply_updates_target (now : Nat) (wd : WordData) (ex doc : Word) :
    (apply_updates now wd ex doc).target = doc.target := rfl

theorem apply_updates_hash (now : Nat) (wd : WordData) (ex doc : Word) :
    (apply_updates now wd ex doc).source_hash = doc.source_hash := rfl

theorem apply_updates_created (now : Nat) (wd : WordData) (ex doc : Word) :
    (apply_updates now wd ex doc).created_at = doc.created_at := rfl

theorem apply_updates_type (now : Nat) (wd : WordData) (ex doc : Word) :
    (apply_updates now wd ex doc).type_ = doc.type_ := rfl

/-- A novel hash takes `add_word`'s insert branch. -/
theorem add_word_novel (now : Nat) (wd : WordData) (db : DB)
    (h : search_hash db (generate_hash wd.source wd.target) = []) :
    add_word now wd db =
      ((db.nextId, true),
        { db with words := db.words ++ [(db.nextId, new_word_doc now wd)],
                  nextId := db.nextId + 1 }) := by
  unfold add_word
  rw [h]

/-- A hash hit takes `add_word`'s merge branch on the first search result. -/
theorem add_word_hit (now : Nat) (wd : WordData) (db : DB) (i : Nat) (ex : Word)
    (rest : List (Nat × Word))
    (h : search_hash db (generate_hash wd.source wd.target) = (i, ex) :: rest) :
    add_word now wd db = ((i, false), update_word_metadata now i wd ex db) := by
  unfold add_word
  rw [h]

/-- Equal lower-cased pairs yield equal hashes. -/
theorem generate_hash_congr {s1 t1 s2 t2 : String}
    (hs : s2.pyLower = s1.pyLower) (ht : t2.pyLower = t1.pyLower) :
    generate_hash s2 t2 = generate_hash s1 t1 := by
  simp [generate_hash, hs, ht]

/-! ## C1 -/

/-- C1: for a well-formed store in which the pair is novel, calling
`add_word` twice with identical source and target yields `(id, true)` then
`(id, false)` with the same id, adds no second row on the second call, and
leaves exactly one stored Word for the pair `(source.lower(), target.lower())`. -/
theorem add_word_twice_dedup (db : DB) (wd wd2 : WordData) (now1 now2 : Nat)
    (hwf : ∀ p ∈ db.words, p.2.source_hash = generate_hash p.2.source p.2.target)
    (hs : wd2.source = wd.source) (ht : wd2.target = wd.target)
    (hnovel : search_hash db (generate_hash wd.source wd.target) = []) :
    (add_word now1 wd db).1.2 = true ∧
    (add_word now2 wd2 (add_word now1 wd db).2).1.1 = (add_word now1 wd db).1.1 ∧
    (add_word now2 wd2 (add_word now1 wd db).2).1.2 = false ∧
    (add_word now2 wd2 (add_word now1 wd db).2).2.words.length
      = db.words.length + 1 ∧
    (add_word now2 wd2 (add_word now1 wd db).2).2.words.countP (fun p =>
        p.2.source.pyLower == wd.source.pyLower &&
        p.2.target.pyLower == wd.target.pyLower) = 1 := by
  have hnil : db.words.filter
      (fun p => p.2.source_hash == generate_hash wd.source wd.target) = [] := hnovel
  have h1 := add_word_novel now1 wd db hnovel
  set doc := new_word_doc now1 wd with hdoc
  set db1 : DB :=
    { db with words := db.words ++ [(db.nextId, doc)], nextId := db.nextId + 1 }
    with hdb1
  have hgh : generate_hash wd2.source wd2.target
      = generate_hash wd.source wd.target := by rw [hs, ht]
  have hsearch : search_hash db1 (generate_hash wd2.source wd2.target)
      = (db.nextId, doc) :: [] := by
    simp only [search_hash, hdb1, List.filter_append, hgh, hnil]
    simp [hdoc, new_word_doc]
  have h2 := add_word_hit now2 wd2 db1 db.nextId doc [] hsearch
  rw [h1, h2]
  refine ⟨rfl, rfl, rfl, ?_, ?_⟩
  · simp [update_word_metadata, hdb1]
  · show List.countP _ (db1.words.map _) = 1
    rw [List.countP_map]
    rw [List.countP_congr (q := fun p =>
        p.2.source.pyLower == wd.source.pyLower &&
        p.2.target.pyLower == wd.target.pyLower)
      (by
        intro p _
        by_cases hc : (p.1 == db.nextId) = true <;>
          simp [hc, apply_updates, Function.comp])]
    rw [hdb1]
    show List.countP _ (db.words ++ [(db.nextId, doc)]) = 1
    rw [List.countP_append]
    have hzero : db.words.countP (fun p =>
        p.2.source.pyLower == wd.source.pyLower &&
        p.2.target.pyLower == wd.target.pyLower) = 0 := by
      rw [List.countP_eq_zero]
      intro p hp hpred
      have hps : p.2.source.pyLower = wd.source.pyLower := by
        have := (Bool.and_eq_true _ _).mp hpred
        exact eq_of_beq this.1
      have hpt : p.2.target.pyLower = wd.target.pyLower := by
        have := (Bool.and_eq_true _ _).mp hpred
        exact eq_of_beq this.2
      have hhash : p.2.source_hash = generate_hash wd.source wd.target :=
        (hwf p hp).trans (generate_hash_congr hps hpt)
      have := List.filter_eq_nil_iff.mp hnil p hp
      simp [hhash] at this
    rw [hzero]
    simp [hdoc, new_word_doc]

/-- C1 witness: the theorem at a concrete novel pair on the empty store. -/
theorem add_word_twice_dedup_witness :
    (add_word 0 katze_fem emptyDB).1.2 = true ∧
    (add_word 1 katze_fem (add_word 0 katze_fem emptyDB).2).1.1
      = (add_word 0 katze_fem emptyDB).1.1 ∧
    (add_word 1 katze_fem (add_word 0 katze_fem emptyDB).2).1.2 = false ∧
    (add_word 1 katze_fem (add_word 0 katze_fem emptyDB).2).2.words.length
      = emptyDB.words.length + 1 ∧
    (add_word 1 katze_fem (add_word 0 katze_fem emptyDB).2).2.words.countP (fun p =>
        p.2.source.pyLower == katze_fem.source.pyLower &&
        p.2.target.pyLower == katze_fem.target.pyLower) = 1 :=
  add_word_twice_dedup emptyDB katze_fem katze_fem 0 1
    (by intro p hp; simp [emptyDB] at hp) rfl rfl rfl

/-! ## C2 -/

/-- C2: when `add_word` collides with the first-matching stored record, the
merge stores the duplicate-free union of existing and incoming categories,
fills each of gender, plural and notes from the incoming record only when
the field is absent on the existing record (never overwriting a set field),
and refreshes `updated_at`. -/
theorem add_word_merge_metadata (db : DB) (wd : WordData) (now : Nat)
    (id : Nat) (ex : Word) (pre post : List (Nat × Word))
    (hdb : db.words = pre ++ (id, ex) :: post)
    (hpre : ∀ p ∈ pre, ¬ p.2.source_hash = generate_hash wd.source wd.target)
    (hex : ex.source_hash = generate_hash wd.source wd.target)
    (hid : ∀ p ∈ pre ++ post, p.1 ≠ id) :
    (add_word now wd db).1 = (id, false) ∧
    ∃ w', (add_word now wd db).2.words = pre ++ (id, w') :: post ∧
      w'.categories.Nodup ∧
      (∀ c, c ∈ w'.categories ↔ c ∈ ex.categories ∨ c ∈ wd.categories.getD []) ∧
      w'.gender
        = (if !truthyS ex.gender && truthyS wd.gender then wd.gender
           else ex.gender) ∧
      w'.plural
        = (if !truthyS ex.plural && truthyS wd.plural then wd.plural
           else ex.plural) ∧
      w'.notes
        = (if !truthyS ex.notes && truthyS wd.notes then wd.notes
           else ex.notes) ∧
      w'.updated_at = now := by
  have hpre' : pre.filter
      (fun p => p.2.source_hash == generate_hash wd.source wd.target) = [] := by
    rw [List.filter_eq_nil_iff]
    intro p hp
    simp [hpre p hp]
  have hsearch : search_hash db (generate_hash wd.source wd.target)
      = (id, ex) :: post.filter
          (fun p => p.2.source_hash == generate_hash wd.source wd.target) := by
    simp only [search_hash, hdb, List.filter_append, hpre', List.filter_cons]
    simp [hex]
  have h2 := add_word_hit now wd db id ex _ hsearch
  rw [h2]
  refine ⟨rfl, apply_updates now wd ex ex, ?_, ?_, ?_, rfl, rfl, rfl, rfl⟩
  · show (db.words.map _) = _
    rw [hdb, List.map_append, List.map_cons]
    have hmap : ∀ l : List (Nat × Word), (∀ p ∈ l, p.1 ≠ id) →
        l.map (fun p =>
          if p.1 == id then (p.1, apply_updates now wd ex p.2) else p) = l := by
      intro l hl
      rw [List.map_congr_left (g := fun p => p) (fun p hp => by simp [hl p hp])]
      exact List.map_id _
    rw [hmap pre (fun p hp => hid p (List.mem_append_left _ hp)),
        hmap post (fun p hp => hid p (List.mem_append_right _ hp))]
    simp [apply_updates]
  · exact List.nodup_dedup _
  · intro c
    simp [apply_updates, List.mem_dedup]

/-- C2 witness: inserting the Katze/cat record with gender feminine and then
merging gender neuter leaves gender feminine and refreshes `updated_at`. -/
theorem add_word_merge_metadata_witness :
    (add_word 1 katze_neut katze_db).1 = (1, false) ∧
    ∃ w', (add_word 1 katze_neut katze_db).2.words = [] ++ (1, w') :: [] ∧
      w'.categories.Nodup ∧
      (∀ c, c ∈ w'.categories ↔
        c ∈ katze_doc.categories ∨ c ∈ katze_neut.categories.getD []) ∧
      w'.gender
        = (if !truthyS katze_doc.gender && truthyS katze_neut.gender
           then katze_neut.gender else katze_doc.gender) ∧
      w'.plural
        = (if !truthyS katze_doc.plural && truthyS katze_neut.plural
           then katze_neut.plural else katze_doc.plural) ∧
      w'.notes
        = (if !truthyS katze_doc.notes && truthyS katze_neut.notes
           then katze_neut.notes else katze_doc.notes) ∧
      w'.updated_at = 1 :=
  add_word_merge_metadata katze_db katze_neut 1 1 katze_doc [] []
    (by decide) (by intro p hp; simp at hp) (by decide)
    (by intro p hp; simp at hp)

/-! ## C8 -/

/-- C8: two `add_word` calls whose pairs differ only in letter case merge
into a single record, and the merge path rewrites neither the stored
`source`/`target` strings nor `source_hash` nor `created_at`: they remain
exactly those written by the first call. -/
theorem add_word_case_preserving (db : DB) (wd1 wd2 : WordData) (now1 now2 : Nat)
    (hls : wd2.source.pyLower = wd1.source.pyLower)
    (hlt : wd2.target.pyLower = wd1.target.pyLower)
    (hnovel : search_hash db (generate_hash wd1.source wd1.target) = [])
    (hfresh : ∀ p ∈ db.words, p.1 ≠ db.nextId) :
    (add_word now2 wd2 (add_word now1 wd1 db).2).1
      = ((add_word now1 wd1 db).1.1, false) ∧
    ∃ w', (add_word now2 wd2 (add_word now1 wd1 db).2).2.words
        = db.words ++ [(db.nextId, w')] ∧
      w'.source = wd1.source ∧ w'.target = wd1.target ∧
      w'.source_hash = generate_hash wd1.source wd1.target ∧
      w'.created_at = now1 := by
  have hnil : db.words.filter
      (fun p => p.2.source_hash == generate_hash wd1.source wd1.target) = []
    := hnovel
  have h1 := add_word_novel now1 wd1 db hnovel
  set doc := new_word_doc now1 wd1 with hdoc
  set db1 : DB :=
    { db with words := db.words ++ [(db.nextId, doc)], nextId := db.nextId + 1 }
    with hdb1
  have hsearch : search_hash db1 (generate_hash wd2.source wd2.target)
      = (db.nextId, doc) :: [] := by
    simp only [search_hash, hdb1, List.filter_append,
      generate_hash_congr hls hlt, hnil]
    simp [hdoc, new_word_doc]
  have h2 := add_word_hit now2 wd2 db1 db.nextId doc [] hsearch
  rw [h1, h2]
  refine ⟨rfl, apply_updates now2 wd2 doc doc, ?_, rfl, rfl, rfl, rfl⟩
  show (db1.words.map _) = _
  rw [hdb1]
  show (db.words ++ [(db.nextId, doc)]).map _ = _
  rw [List.map_append]
  have hmap : db.words.map (fun p =>
      if p.1 == db.nextId then (p.1, apply_updates now2 wd2 doc p.2) else p)
      = db.words := by
    rw [List.map_congr_left (g := fun p => p)
      (fun p hp => by simp [hfresh p hp])]
    exact List.map_id _
  rw [hmap]
  simp

/-- C8 witness: Fisch/fish then fisch/FISH on the empty store. -/
theorem add_word_case_preserving_witness :
    (add_word 1 fisch_second (add_word 0 fisch_first emptyDB).2).1
      = ((add_word 0 fisch_first emptyDB).1.1, false) ∧
    ∃ w', (add_word 1 fisch_second (add_word 0 fisch_first emptyDB).2).2.words
        = emptyDB.words ++ [(emptyDB.nextId, w')] ∧
      w'.source = fisch_first.source ∧ w'.target = fisch_first.target ∧
      w'.source_hash = generate_hash fisch_first.source fisch_first.target ∧
      w'.created_at = 0 :=
  add_word_case_preserving emptyDB fisch_first fisch_second 0 1
    (by decide) (by decide) rfl (by intro p hp; simp [emptyDB] at hp)

/-! ## C3 -/

/-- C3 counterexample: with the vocabulary record Katze/cat stored, storing a
quiz with question "Katze" and answer "cat" leaves a single record — the
quiz merged into the vocabulary record — and the stored record carries no
`type` key: the `type: "quiz"` discriminator is not retained and does not
prevent the collision. -/
theorem store_quiz_type_counterexample :
    (store_quiz_to_db 1 quiz_katze katze_db).2.words.length = 1 ∧
    ((store_quiz_to_db 1 quiz_katze katze_db).2.words.map (fun p => p.2.type_))
      = [none] := by
  decide

/-- C3 amended: `store_quiz_to_db` passes a `type: "quiz"` key to `add_word`,
but `add_word` discards it and dedups by the lower-cased pair hash alone:
when the store already holds a record with the quiz pair's hash, storing
the quiz adds no record (it merges into the existing one), and a store
whose records all lack a `type` key still lacks `type` keys afterwards. -/
theorem store_quiz_no_discriminator (now : Nat) (q : ProcessedQuestion)
    (db : DB) :
    (search_hash db (generate_hash q.question q.answer) ≠ [] →
      (store_quiz_to_db now q db).2.words.length = db.words.length) ∧
    ((∀ p ∈ db.words, p.2.type_ = none) →
      ∀ p ∈ (store_quiz_to_db now q db).2.words, p.2.type_ = none) := by
  set wd : WordData :=
    { source := q.question, target := q.answer,
      category := some q.category, type_ := some "quiz" } with hwd
  have hsq : (store_quiz_to_db now q db).2 = (add_word now wd db).2 := rfl
  have hg : generate_hash wd.source wd.target
      = generate_hash q.question q.answer := rfl
  constructor
  · intro hne
    rw [hsq]
    cases hcase : search_hash db (generate_hash wd.source wd.target) with
    | nil => exact absurd (hg ▸ hcase) hne
    | cons head rest =>
        rw [add_word_hit now wd db head.1 head.2 rest (by rw [hcase])]
        simp [update_word_metadata]
  · intro hall p hp
    rw [hsq] at hp
    cases hcase : search_hash db (generate_hash wd.source wd.target) with
    | nil =>
        rw [add_word_novel now wd db hcase] at hp
        rcases List.mem_append.mp hp with h | h
        · exact hall p h
        · simp only [List.mem_singleton] at h
          rw [h]
          rfl
    | cons head rest =>
        rw [add_word_hit now wd db head.1 head.2 rest (by rw [hcase])] at hp
        rcases List.mem_map.mp hp with ⟨a, ha, hfa⟩
        by_cases hc : (a.1 == head.1) = true <;> rw [← hfa] <;>
          simp [hc, apply_updates_type, hall a ha]

/-- C3 amended witness: the amended theorem applied to the Katze/cat store
and the colliding quiz. -/
theorem store_quiz_no_discriminator_witness :
    (store_quiz_to_db 1 quiz_katze katze_db).2.words.length
      = katze_db.words.length ∧
    ∀ p ∈ (store_quiz_to_db 1 quiz_katze katze_db).2.words, p.2.type_ = none :=
  ⟨(store_quiz_no_discriminator 1 quiz_katze katze_db).1 (by decide),
   (store_quiz_no_discriminator 1 quiz_katze katze_db).2 (by decide)⟩

/-! ## Hash-presence lemmas for the loader pipeline -/

/-- `add_word` never removes a stored hash. -/
theorem add_word_keeps_hash (now : Nat) (wd : WordData) (db : DB) (h : String)
    (hmem : ∃ p ∈ db.words, p.2.source_hash = h) :
    ∃ p ∈ (add_word now wd db).2.words, p.2.source_hash = h := by
  obtain ⟨p, hp, hph⟩ := hmem
  cases hcase : search_hash db (generate_hash wd.source wd.target) with
  | nil =>
      rw [add_word_novel now wd db hcase]
      exact ⟨p, List.mem_append_left _ hp, hph⟩
  | cons head rest =>
      rw [add_word_hit now wd db head.1 head.2 rest hcase]
      refine ⟨_, List.mem_map_of_mem
        (fun p => if p.1 == head.1
          then (p.1, apply_updates now wd head.2 p.2) else p) hp, ?_⟩
      by_cases hc : (p.1 == head.1) = true <;> simp [hc, apply_updates_hash, hph]

/-- After `add_word`, some stored record carries the argument pair's hash. -/
theorem add_word_puts_hash (now : Nat) (wd : WordData) (db : DB) :
    ∃ p ∈ (add_word now wd db).2.words,
      p.2.source_hash = generate_hash wd.source wd.target := by
  cases hcase : search_hash db (generate_hash wd.source wd.target) with
  | nil =>
      rw [add_word_novel now wd db hcase]
      exact ⟨(db.nextId, new_word_doc now wd),
        List.mem_append_right _ (List.mem_singleton.mpr rfl), rfl⟩
  | cons head rest =>
      rw [add_word_hit now wd db head.1 head.2 rest hcase]
      have hin : head ∈ db.words.filter
          (fun p => p.2.source_hash == generate_hash wd.source wd.target) := by
        show head ∈ search_hash db (generate_hash wd.source wd.target)
        rw [hcase]; exact List.mem_cons_self _ _
      have hmem : head ∈ db.words := (List.mem_filter.mp hin).1
      have hhash : head.2.source_hash = generate_hash wd.source wd.target :=
        eq_of_beq (List.mem_filter.mp hin).2
      refine ⟨_, List.mem_map_of_mem
        (fun p => if p.1 == head.1
          then (p.1, apply_updates now wd head.2 p.2) else p) hmem, ?_⟩
      by_cases hc : (head.1 == head.1) = true <;>
        simp [hc, apply_updates_hash, hhash]

/-- The batch-store loop never removes a stored hash. -/
theorem store_words_keeps_hash (now : Nat) (ws : List WordData) (db : DB)
    (h : String) (hmem : ∃ p ∈ db.words, p.2.source_hash = h) :
    ∃ p ∈ (store_words_in_database now ws db).words, p.2.source_hash = h := by
  induction ws generalizing db with
  | nil => exact hmem
  | cons w rest ih =>
      exact ih (add_word now w db).2 (add_word_keeps_hash now w db h hmem)

/-- Every record of a stored batch leaves its pair's hash in the store. -/
theorem store_words_mem_hash (now : Nat) (ws : List WordData) (db : DB)
    (wd : WordData) (hwd : wd ∈ ws) :
    ∃ p ∈ (store_words_in_database now ws db).words,
      p.2.source_hash = generate_hash wd.source wd.target := by
  induction ws generalizing db with
  | nil => cases hwd
  | cons w rest ih =>
      rcases List.mem_cons.mp hwd with heq | hmem
      · subst heq
        exact store_words_keeps_hash now rest (add_word now wd db).2 _
          (add_word_puts_hash now wd db)
      · exact ih (add_word now w db).2 hmem

/-! ## C4 -/

/-- C4 counterexample: the enhanced-format batch with one entry whose target
is empty fails `validate_word_list`, yet `load_from_yaml` persists its
record: one record from the failing batch reaches the store. -/
theorem load_from_yaml_no_validation_counterexample :
    validate_word_list (process_yaml bad_batch) = false ∧
    (load_from_yaml 0 bad_batch emptyDB).2.words.length = 1 := by
  decide

/-- C4 amended: `load_from_yaml` never invokes `validate_word_list`; even
when the normalized batch fails `validate`, every record of the batch is
passed to `add_word` and its pair's hash reaches the store. -/
theorem load_from_yaml_persists_unvalidated (now : Nat) (data : YamlData)
    (db : DB) (_hval : validate_word_list (process_yaml data) = false) :
    ∀ wd ∈ process_yaml data,
      ∃ p ∈ (load_from_yaml now data db).2.words,
        p.2.source_hash = generate_hash wd.source wd.target := by
  intro wd hwd
  exact store_words_mem_hash now (process_yaml data) db wd hwd

/-- C4 amended witness: the failing batch's record reaches the store. -/
theorem load_from_yaml_persists_unvalidated_witness :
    ∃ p ∈ (load_from_yaml 0 bad_batch emptyDB).2.words,
      p.2.source_hash = generate_hash bad_wd.source bad_wd.target :=
  load_from_yaml_persists_unvalidated 0 bad_batch emptyDB (by decide)
    bad_wd (by decide)

/-! ## C5 -/

/-- C5 counterexample: `add_word` on a record that omits `categories` stores
the empty list, not `["uncategorized"]`: the stored word's categories set
is empty. -/
theorem add_word_default_categories_counterexample :
    ((add_word 0 plain_ab emptyDB).2.words.map (fun p => p.2.categories))
      = [[]] := by
  decide

/-- C5 amended: `add_word` itself defaults `categories` to the empty list;
the `["uncategorized"]` default is applied only by the vocabulary
normalizer (simple format always, enhanced format when the key is absent),
and quiz records stored through `store_quiz_to_db` carry empty categories. -/
theorem categories_defaults (now : Nat) (wd : WordData) (db : DB)
    (q : ProcessedQuestion) :
    (wd.categories = none →
      search_hash db (generate_hash wd.source wd.target) = [] →
      ∃ w', (add_word now wd db).2.words = db.words ++ [(db.nextId, w')] ∧
        w'.categories = []) ∧
    (∀ pairs, ∀ w ∈ process_simple_format pairs,
      w.categories = some ["uncategorized"]) ∧
    (∀ s t g p n, process_enhanced_format [.full s t g p none n]
        = [{ source := s, target := t, gender := g, plural := p,
             categories := some ["uncategorized"], notes := n }]) ∧
    (search_hash db (generate_hash q.question q.answer) = [] →
      ∃ w', (store_quiz_to_db now q db).2.words = db.words ++ [(db.nextId, w')] ∧
        w'.categories = []) := by
  refine ⟨?_, ?_, ?_, ?_⟩
  · intro hcat hnovel
    rw [add_word_novel now wd db hnovel]
    exact ⟨new_word_doc now wd, rfl, by simp [new_word_doc, hcat]⟩
  · intro pairs w hw
    rcases List.mem_map.mp hw with ⟨pq, _, hpq⟩
    rw [← hpq]
  · intro s t g p n
    rfl
  · intro hnovel
    set wdq : WordData :=
      { source := q.question, target := q.answer,
        category := some q.category, type_ := some "quiz" } with hwdq
    have hsq : (store_quiz_to_db now q db).2 = (add_word now wdq db).2 := rfl
    rw [hsq, add_word_novel now wdq db hnovel]
    exact ⟨new_word_doc now wdq, rfl, by simp [new_word_doc, hwdq]⟩

/-- C5 amended witness: the four conjuncts at concrete inputs. -/
theorem categories_defaults_witness :
    (∃ w', (add_word 0 plain_ab emptyDB).2.words
        = emptyDB.words ++ [(emptyDB.nextId, w')] ∧ w'.categories = []) ∧
    (∀ w ∈ process_simple_format [("x", "y")],
      w.categories = some ["uncategorized"]) ∧
    (process_enhanced_format [.full "s" "t" none none none none]
        = [{ source := "s", target := "t", gender := none, plural := none,
             categories := some ["uncategorized"], notes := none }]) ∧
    (∃ w', (store_quiz_to_db 0 quiz_katze emptyDB).2.words
        = emptyDB.words ++ [(emptyDB.nextId, w')] ∧ w'.categories = []) :=
  ⟨(categories_defaults 0 plain_ab emptyDB quiz_katze).1 rfl rfl,
   (categories_defaults 0 plain_ab emptyDB quiz_katze).2.1 [("x", "y")],
   (categories_defaults 0 plain_ab emptyDB quiz_katze).2.2.1 "s" "t"
     none none none,
   (categories_defaults 0 plain_ab emptyDB quiz_katze).2.2.2 rfl⟩

/-! ## C9 -/

/-- `apply_override` over the default config agrees with the spec's
field-by-field merge description. -/
theorem apply_override_eq_spec (o : Option MediaOverride) :
    apply_override default_media o = spec_media_merge o := by
  cases o <;> rfl

/-- C9: `_process_question` drops an entry exactly when it lacks a question
or an answer key; otherwise the produced record's media configs are the
default overridden field-by-field by the caller-supplied keys, its image
search terms default to the question/answer text, and its langs default to
"en". -/
theorem process_question_spec (qd : QuestionData) (cat : String) :
    (process_question qd cat = none ↔ qd.question = none ∨ qd.answer = none) ∧
    (∀ q a pq, qd.question = some q → qd.answer = some a →
      process_question qd cat = some pq →
      pq.question = q ∧ pq.answer = a ∧
      pq.question_media = spec_media_merge qd.question_media ∧
      pq.answer_media = spec_media_merge qd.answer_media ∧
      pq.question_image_search_term = qd.question_image_search_term.getD q ∧
      pq.answer_image_search_term = qd.answer_image_search_term.getD a ∧
      pq.question_lang = qd.question_lang.getD "en" ∧
      pq.answer_lang = qd.answer_lang.getD "en" ∧
      pq.category = cat ∧ pq.notes = qd.notes) := by
  constructor
  · cases hq : qd.question <;> cases ha : qd.answer <;>
      simp [process_question, hq, ha]
  · intro q a pq hq ha hpq
    simp only [process_question, hq, ha, Option.some.injEq] at hpq
    rw [← hpq]
    refine ⟨rfl, rfl, apply_override_eq_spec _, apply_override_eq_spec _,
      rfl, rfl, rfl, rfl, rfl, rfl⟩

/-- C9 witness: the second conjunct at a concrete question entry with a
partial media override and an explicit answer lang. -/
theorem process_question_spec_witness :
    sample_processed.question = "Who?" ∧ sample_processed.answer = "Me" ∧
    sample_processed.question_media
      = spec_media_merge sample_question.question_media ∧
    sample_processed.answer_media
      = spec_media_merge sample_question.answer_media ∧
    sample_processed.question_image_search_term
      = sample_question.question_image_search_term.getD "Who?" ∧
    sample_processed.answer_image_search_term
      = sample_question.answer_image_search_term.getD "Me" ∧
    sample_processed.question_lang = sample_question.question_lang.getD "en" ∧
    sample_processed.answer_lang = sample_question.answer_lang.getD "en" ∧
    sample_processed.category = "Trivia" ∧
    sample_processed.notes = sample_question.notes :=
  (process_question_spec sample_question "Trivia").2 "Who?" "Me"
    sample_processed rfl rfl (by decide)

/-! ## C10 -/

/-- C10: `add_word_relation` records the triple for arbitrary ids without
checking that either word exists, and `get_word_relations` returns exactly
the relations of `word_id` whose related word currently resolves, each
reported with the related word's current source and target. -/
theorem word_relations_spec (db : DB) (wid rid : Nat) (ty : String) :
    ({ word_id := wid, related_word_id := rid, relation_type := ty } : Relation)
      ∈ (add_word_relation db wid rid ty).relations ∧
    (∀ e, e ∈ get_word_relations db wid ↔
      ∃ r ∈ db.relations, r.word_id = wid ∧
        ∃ w, get_doc db r.related_word_id = some w ∧
          e = { source := w.source, target := w.target,
                relation_type := r.relation_type }) := by
  constructor
  · set r : Relation :=
      { word_id := wid, related_word_id := rid, relation_type := ty } with hr
    show r ∈ (add_word_relation db wid rid ty).relations
    unfold add_word_relation
    by_cases hc : (db.relations.filter (fun x => x == r)).isEmpty = true
    · rw [← hr, if_pos hc]
      exact List.mem_append_right _ (List.mem_singleton.mpr rfl)
    · rw [← hr, if_neg hc]
      have hne : db.relations.filter (fun x => x == r) ≠ [] := by
        intro hnil
        exact hc (by rw [hnil]; rfl)
      rcases List.exists_mem_of_ne_nil _ hne with ⟨x, hx⟩
      have := List.mem_filter.mp hx
      exact (eq_of_beq this.2) ▸ this.1
  · intro e
    simp only [get_word_relations, List.mem_filterMap, List.mem_filter,
      Option.map_eq_some', beq_iff_eq]
    constructor
    · rintro ⟨r, ⟨h1, h2⟩, w, h3, h4⟩
      exact ⟨r, h1, h2, w, h3, h4.symm⟩
    · rintro ⟨r, h1, h2, w, h3, h4⟩
      exact ⟨r, ⟨h1, h2⟩, w, h3, h4.symm⟩

/-- C10 witness: the theorem at a store holding one resolvable and one
dangling relation. -/
theorem word_relations_spec_witness :
    ({ word_id := 1, related_word_id := 5, relation_type := "antonym" }
        : Relation)
      ∈ (add_word_relation rel_db 1 5 "antonym").relations ∧
    (∀ e, e ∈ get_word_relations rel_db 1 ↔
      ∃ r ∈ rel_db.relations, r.word_id = 1 ∧
        ∃ w, get_doc rel_db r.related_word_id = some w ∧
          e = { source := w.source, target := w.target,
                relation_type := r.relation_type }) :=
  word_relations_spec rel_db 1 5 "antonym"

/-! ## Lemmas on the `seen` dict of `get_duplicates` -/

/-- Bumping a count changes no key's presence. -/
theorem seen_lookup_bump (k k' : String × String)
    (seen : List ((String × String) × Nat)) :
    (seen_lookup k (bump_seen k' seen)).isSome
      = (seen_lookup k seen).isSome := by
  induction seen with
  | nil => rfl
  | cons h t ih =>
      obtain ⟨kk, n⟩ := h
      by_cases hc : (kk == k') = true <;>
        by_cases hk : (kk == k) = true <;>
          simp [bump_seen, seen_lookup, hc, hk, ih]

/-- Looking up after appending a fresh binding at the end. -/
theorem seen_lookup_append (k k' : String × String) (n : Nat) :
    ∀ seen, seen_lookup k (seen ++ [(k', n)])
      = (match seen_lookup k seen with
         | some m => some m
         | none => if k' == k then some n else none) := by
  intro seen
  induction seen with
  | nil => rfl
  | cons h t ih =>
      obtain ⟨kk, m⟩ := h
      by_cases hk : (kk == k) = true <;> simp [seen_lookup, hk, ih]

/-- If some element's pair is already in `seen`, the loop emits an entry. -/
theorem dup_go_ne_nil (ws : List Word) :
    ∀ (seen : List ((String × String) × Nat)) (w : Word), w ∈ ws →
      (seen_lookup (pairOf w) seen).isSome = true → dup_go ws seen ≠ [] := by
  induction ws with
  | nil => intro seen w hw; cases hw
  | cons x rest ih =>
      intro seen w hw hs
      simp only [dup_go]
      cases hcase : seen_lookup (pairOf x) seen with
      | some n => simp
      | none =>
          rcases List.mem_cons.mp hw with heq | hmem
          · subst heq; rw [hcase] at hs; cases hs
          · show dup_go rest (seen ++ [(pairOf x, 1)]) ≠ []
            apply ih _ w hmem
            obtain ⟨m, hm⟩ := Option.isSome_iff_exists.mp hs
            rw [seen_lookup_append, hm]
            rfl

/-- A repeated exact pair forces a non-empty result, whatever `seen` holds. -/
theorem dup_go_ne_nil_of_dup (ws : List Word) :
    ∀ seen, ¬ (ws.map pairOf).Nodup → dup_go ws seen ≠ [] := by
  induction ws with
  | nil => intro seen hnd; simp at hnd
  | cons x rest ih =>
      intro seen hnd
      simp only [dup_go]
      cases hcase : seen_lookup (pairOf x) seen with
      | some n => simp
      | none =>
          rw [List.map_cons, List.nodup_cons] at hnd
          show dup_go rest (seen ++ [(pairOf x, 1)]) ≠ []
          by_cases hmem : pairOf x ∈ rest.map pairOf
          · rcases List.mem_map.mp hmem with ⟨w, hw, hpw⟩
            apply dup_go_ne_nil rest _ w hw
            rw [seen_lookup_append, hpw, hcase]
            simp
          · apply ih
            intro hnd'
            exact hnd ⟨hmem, hnd'⟩

/-- Distinct exact pairs, none pre-seen, produce no entry. -/
theorem dup_go_eq_nil (ws : List Word) :
    ∀ seen, (ws.map pairOf).Nodup →
      (∀ w ∈ ws, seen_lookup (pairOf w) seen = none) →
      dup_go ws seen = [] := by
  induction ws with
  | nil => intro seen _ _; rfl
  | cons x rest ih =>
      intro seen hnd hnone
      simp only [dup_go]
      rw [hnone x (List.mem_cons_self _ _)]
      show dup_go rest (seen ++ [(pairOf x, 1)]) = []
      rw [List.map_cons, List.nodup_cons] at hnd
      apply ih _ hnd.2
      intro w hw
      rw [seen_lookup_append, hnone w (List.mem_cons_of_mem _ hw)]
      have hne : (pairOf x == pairOf w) = false := by
        rw [beq_eq_false_iff_ne]
        intro he
        exact hnd.1 (he ▸ List.mem_map_of_mem pairOf hw)
      rw [hne]
      rfl

/-- The loop depends only on the exact string pairs of the walked records. -/
theorem dup_go_congr (ws : List Word) :
    ∀ (ws' : List Word) (seen), ws.map pairOf = ws'.map pairOf →
      dup_go ws seen = dup_go ws' seen := by
  induction ws with
  | nil =>
      intro ws' seen h
      cases ws' with
      | nil => rfl
      | cons y t => simp at h
  | cons x rest ih =>
      intro ws' seen h
      cases ws' with
      | nil => simp at h
      | cons y rest' =>
          simp only [List.map_cons, List.cons.injEq] at h
          obtain ⟨hxy, hrest⟩ := h
          have hxs : x.source = y.source := congrArg Prod.fst hxy
          have hxt : x.target = y.target := congrArg Prod.snd hxy
          cases hcase : seen_lookup (pairOf x) seen with
          | some n =>
              have hcase' : seen_lookup (pairOf y) seen = some n := by
                rw [← hxy]; exact hcase
              simp only [dup_go, hcase, hcase']
              rw [hxs, hxt, hxy, ih rest' _ hrest]
          | none =>
              have hcase' : seen_lookup (pairOf y) seen = none := by
                rw [← hxy]; exact hcase
              simp only [dup_go, hcase, hcase']
              rw [hxy, ih rest' _ hrest]

/-- Counting copies of one word starting from a count of `c`. -/
theorem dup_go_replicate (w : Word) :
    ∀ (m c : Nat), dup_go (List.replicate m w) [(pairOf w, c)]
      = (List.range m).map (fun k =>
          { source := w.source, target := w.target, count := c + k + 1 }) := by
  intro m
  induction m with
  | zero => intro c; rfl
  | succ m ih =>
      intro c
      have hl : seen_lookup (pairOf w) [(pairOf w, c)] = some c := by
        simp [seen_lookup]
      have hb : bump_seen (pairOf w) [(pairOf w, c)] = [(pairOf w, c + 1)] := by
        simp [bump_seen]
      have step : dup_go (List.replicate (m + 1) w) [(pairOf w, c)]
          = { source := w.source, target := w.target, count := c + 1 }
            :: dup_go (List.replicate m w) [(pairOf w, c + 1)] := by
        simp only [List.replicate_succ, dup_go]
        rw [hl, hb]
      rw [step, ih (c + 1), List.range_succ_eq_map, List.map_cons, List.map_map]
      congr 1
      apply List.map_congr_left
      intro k _
      simp only [Function.comp]
      congr 1
      omega

/-! ## C6 -/

/-- C6 counterexample: three stored copies of the exact pair ("a", "b") form
one duplicate group, yet `get_duplicates` reports two entries (counts 2 and
3), not one entry per group carrying the group's size. -/
theorem get_duplicates_counterexample :
    get_duplicates [word_ab, word_ab, word_ab]
      ≠ [{ source := "a", target := "b", count := 3 }] ∧
    get_duplicates [word_ab, word_ab, word_ab]
      = [{ source := "a", target := "b", count := 2 },
         { source := "a", target := "b", count := 3 }] := by
  decide

/-- C6 amended: `get_duplicates` groups by the exact (not lower-cased)
(source, target) pair and depends on nothing else (in particular not on
the hash); its result is empty exactly when no two records share an exact
pair; and a group of n equal pairs is reported as n-1 entries whose counts
run 2..n (one entry per occurrence after the first), not as one entry per
group. -/
theorem get_duplicates_spec (ws : List Word) :
    (get_duplicates ws = [] ↔ (ws.map pairOf).Nodup) ∧
    (∀ ws', ws.map pairOf = ws'.map pairOf →
      get_duplicates ws = get_duplicates ws') ∧
    (∀ (w : Word) (n : Nat),
      get_duplicates (List.replicate (n + 2) w)
        = (List.range (n + 1)).map (fun k =>
            { source := w.source, target := w.target, count := k + 2 })) := by
  refine ⟨⟨?_, ?_⟩, ?_, ?_⟩
  · intro hnil
    by_contra hnd
    exact dup_go_ne_nil_of_dup ws [] hnd hnil
  · intro hnd
    exact dup_go_eq_nil ws [] hnd (fun w _ => rfl)
  · intro ws' h
    exact dup_go_congr ws ws' [] h
  · intro w n
    show dup_go (List.replicate (n + 2) w) [] = _
    rw [List.replicate_succ]
    simp only [dup_go, seen_lookup]
    show dup_go (List.replicate (n + 1) w) ([] ++ [(pairOf w, 1)]) = _
    rw [List.nil_append, dup_go_replicate w (n + 1) 1]
    apply List.map_congr_left
    intro k _
    congr 1
    omega

/-- C6 amended witness: a duplicate-free store yields no entry; a store
differing only in non-pair fields (hash, gender) yields the same
diagnostics; three copies of one word yield the two entries of counts 2
and 3. -/
theorem get_duplicates_spec_witness :
    get_duplicates [word_ab, word_cd] = [] ∧
    get_duplicates [word_ab] = get_duplicates [word_ab_x] ∧
    get_duplicates (List.replicate (1 + 2) word_ab)
      = (List.range (1 + 1)).map (fun k =>
          { source := word_ab.source, target := word_ab.target,
            count := k + 2 }) :=
  ⟨(get_duplicates_spec [word_ab, word_cd]).1.mpr (by decide),
   (get_duplicates_spec [word_ab]).2.1 [word_ab_x] (by decide),
   (get_duplicates_spec []).2.2 word_ab 1⟩

/-! ## Lemmas on the export sort -/

/-- The exported record's `source` entry is the stored word's source. -/
theorem rec_source_export (w : Word) : rec_source (export_record w) = w.source := by
  cases hg : truthyS w.gender <;> cases hp : truthyS w.plural <;>
    cases hc : w.categories.isEmpty <;> cases hn : truthyS w.notes <;>
      simp [rec_source, export_record, hg, hp, hc, hn, List.lookup]

/-- Membership in a stable insertion. -/
theorem mem_insert_by_source {y w : Word} {l : List Word} :
    y ∈ insert_by_source w l ↔ y = w ∨ y ∈ l := by
  induction l with
  | nil => simp [insert_by_source]
  | cons x xs ih =>
      simp only [insert_by_source]
      by_cases hc : x.source ≤ w.source
      · rw [if_pos hc]
        simp [ih]
        tauto
      · rw [if_neg hc]
        simp

/-- Stable insertion preserves sortedness by `source`. -/
theorem insert_by_source_pairwise (w : Word) (l : List Word)
    (hl : l.Pairwise (fun a b => a.source ≤ b.source)) :
    (insert_by_source w l).Pairwise (fun a b => a.source ≤ b.source) := by
  induction l with
  | nil => simp [insert_by_source]
  | cons x xs ih =>
      rcases List.pairwise_cons.mp hl with ⟨hx, hxs⟩
      simp only [insert_by_source]
      by_cases hc : x.source ≤ w.source
      · rw [if_pos hc]
        apply List.pairwise_cons.mpr
        refine ⟨?_, ih hxs⟩
        intro y hy
        rcases mem_insert_by_source.mp hy with rfl | hy'
        · exact hc
        · exact hx y hy'
      · rw [if_neg hc]
        apply List.pairwise_cons.mpr
        refine ⟨?_, hl⟩
        intro y hy
        rcases List.mem_cons.mp hy with rfl | hy'
        · exact le_of_not_le hc
        · exact le_trans (le_of_not_le hc) (hx y hy')

/-- The left-fold insertion sort yields a list sorted by `source`. -/
theorem sort_aux_pairwise (ws : List Word) :
    ∀ acc, acc.Pairwise (fun a b => a.source ≤ b.source) →
      (ws.foldl (fun acc w => insert_by_source w acc) acc).Pairwise
        (fun a b => a.source ≤ b.source) := by
  induction ws with
  | nil => intro acc h; exact h
  | cons w rest ih =>
      intro acc h
      exact ih _ (insert_by_source_pairwise w acc h)

/-- Inserting a word whose source is not `s` leaves the `s`-filter alone. -/
theorem filter_insert_ne (w : Word) (s : String) (l : List Word)
    (hws : (w.source == s) = false) :
    (insert_by_source w l).filter (fun x => x.source == s)
      = l.filter (fun x => x.source == s) := by
  induction l with
  | nil => simp [insert_by_source, hws]
  | cons x xs ih =>
      simp only [insert_by_source]
      by_cases hc : x.source ≤ w.source
      · rw [if_pos hc]
        simp [List.filter_cons, ih]
      · rw [if_neg hc]
        simp [List.filter_cons, hws]

/-- Inserting a word whose source is `s` into a sorted list appends it to
the end of the `s`-filter: ties keep arrival order. -/
theorem filter_insert_eq (w : Word) (s : String) (l : List Word)
    (hws : (w.source == s) = true)
    (hl : l.Pairwise (fun a b => a.source ≤ b.source)) :
    (insert_by_source w l).filter (fun x => x.source == s)
      = l.filter (fun x => x.source == s) ++ [w] := by
  induction l with
  | nil => simp [insert_by_source, hws]
  | cons x xs ih =>
      rcases List.pairwise_cons.mp hl with ⟨hx, hxs⟩
      simp only [insert_by_source]
      by_cases hc : x.source ≤ w.source
      · rw [if_pos hc]
        simp only [List.filter_cons, ih hxs]
        split <;> simp
      · rw [if_neg hc]
        have hws' : w.source = s := eq_of_beq hws
        have hlt : w.source < x.source := lt_of_not_le hc
        have hfilter : (x :: xs).filter (fun y => y.source == s) = [] := by
          rw [List.filter_eq_nil_iff]
          intro y hy
          have hxy : x.source ≤ y.source := by
            rcases List.mem_cons.mp hy with rfl | hy'
            · exact le_refl _
            · exact hx y hy'
          have hgt : s < y.source := lt_of_lt_of_le (hws' ▸ hlt) hxy
          simp only [beq_iff_eq]
          exact ne_of_gt hgt
        simp [List.filter_cons, hws, hfilter]

/-- The `s`-filter of the fold is the `s`-filter of the accumulator followed
by the `s`-filter of the input, in input order. -/
theorem filter_sort_aux (s : String) (ws : List Word) :
    ∀ acc, acc.Pairwise (fun a b => a.source ≤ b.source) →
      (ws.foldl (fun acc w => insert_by_source w acc) acc).filter
          (fun x => x.source == s)
        = acc.filter (fun x => x.source == s)
            ++ ws.filter (fun x => x.source == s) := by
  induction ws with
  | nil => intro acc _; simp
  | cons w rest ih =>
      intro acc hacc
      show (rest.foldl _ (insert_by_source w acc)).filter _ = _
      rw [ih _ (insert_by_source_pairwise w acc hacc)]
      by_cases hw : (w.source == s) = true
      · rw [filter_insert_eq w s acc hw hacc]
        simp [List.filter_cons, hw]
      · rw [filter_insert_ne w s acc (by simpa using hw)]
        simp [List.filter_cons, hw]

/-! ## C7 -/

/-- C7: `export_words` returns the stored words sorted ascending by `source`
under the language's default string ordering, with ties retaining store
iteration order (for every source value, the exported records with that
source list the matching stored words in table order); and each exported
record always carries `source`/`target` while carrying a `gender`,
`plural`, `categories` or `notes` key exactly when the stored field is
set/non-empty — an absent field yields no key at all. -/
theorem export_words_spec (ws : List Word) :
    (export_words ws).Pairwise (fun r1 r2 => rec_source r1 ≤ rec_source r2) ∧
    (∀ s, (export_words ws).filter (fun r => rec_source r == s)
        = (ws.filter (fun w => w.source == s)).map export_record) ∧
    (∀ w : Word,
      (export_record w).lookup "source" = some (.s w.source) ∧
      (export_record w).lookup "target" = some (.s w.target) ∧
      (("gender" ∈ (export_record w).map Prod.fst) ↔ truthyS w.gender = true) ∧
      (("plural" ∈ (export_record w).map Prod.fst) ↔ truthyS w.plural = true) ∧
      (("categories" ∈ (export_record w).map Prod.fst) ↔ w.categories ≠ []) ∧
      (("notes" ∈ (export_record w).map Prod.fst) ↔ truthyS w.notes = true)) := by
  refine ⟨?_, ?_, ?_⟩
  · rw [export_words, List.pairwise_map]
    have hs := sort_aux_pairwise ws [] List.Pairwise.nil
    exact hs.imp (fun {a b} h => by rw [rec_source_export, rec_source_export]; exact h)
  · intro s
    rw [export_words, List.filter_map]
    have hcong : ((fun r => rec_source r == s) ∘ export_record)
        = (fun w => w.source == s) := by
      funext w
      simp [Function.comp, rec_source_export]
    rw [hcong]
    congr 1
    have h := filter_sort_aux s ws [] List.Pairwise.nil
    simpa using h
  · intro w
    refine ⟨?_, ?_, ?_, ?_, ?_, ?_⟩ <;>
      cases hg : truthyS w.gender <;> cases hp : truthyS w.plural <;>
        cases hc : w.categories.isEmpty <;> cases hn : truthyS w.notes <;>
          simp_all [export_record, List.lookup, List.isEmpty_iff]

end Wordflash
